import Mathlib

/-!
# Verification of the mickey ingest/store/transfer core

Shallow embedding of the Rust sources:

* `src/impl/stipd/src/image.rs`       — `ImageManager` (on-disk image store)
* `src/impl/node/src/transfer.rs`     — binary tile transfer protocol
* `src/impl/stipd/src/task/load/sentinel_2.rs` — Sentinel-2 load pipeline
* `src/impl/stip/src/data.rs`         — CLI-side cluster search aggregation
* `src/impl/stipd/src/main.rs`        — daemon wiring (constants only)

Conventions: Rust strings are represented by their UTF-8 byte sequences
(`List Nat`, every element `< 256`) where byte-level behaviour matters, and by
`String` where only ordering matters (the search aggregation); `i64` values are
`Int` with explicit two's-complement serialization; `f64` values are carried as
their raw 64-bit IEEE-754 patterns (`Nat < 2^64`), so "bit-exact" statements
are statements about those patterns.
-/

set_option maxRecDepth 8192

namespace Stip

/-! ## Big-endian byte serialization (byteorder crate, `BigEndian`) -/

/-- Big-endian bytes of `n`, exactly `k` bytes (most significant first).
Mirrors what `byteorder::WriteBytesExt::write_u64::<BigEndian>` emits. -/
def natToBytesBE : Nat → Nat → List Nat
  | 0, _ => []
  | k + 1, n => natToBytesBE k (n / 256) ++ [n % 256]

/-- Read a big-endian byte sequence back into a `Nat`. -/
def bytesToNatBE (l : List Nat) : Nat :=
  l.foldl (fun a b => a * 256 + b) 0

/-- Two's-complement big-endian serialization of an `i64`
(`byteorder::WriteBytesExt::write_i64::<BigEndian>`). -/
def i64ToBytesBE (x : Int) : List Nat :=
  natToBytesBE 8 ((x.emod (2 ^ 64)).toNat)

/-- Two's-complement read-back of an `i64`
(`byteorder::ReadBytesExt::read_i64::<BigEndian>`). -/
def bytesToI64BE (l : List Nat) : Int :=
  if bytesToNatBE l < 2 ^ 63 then (bytesToNatBE l : Int)
  else (bytesToNatBE l : Int) - 2 ^ 64

/-! ## `ImageManager` sidecar record (`src/impl/stipd/src/image.rs`)

`ImageManager::write` emits, in order: `write_i64::<BigEndian>(start_date)`,
`write_i64::<BigEndian>(end_date)`, `write_f64::<BigEndian>(coverage)`.
`ImageManager::search` reads them back in the same order.  The `f64` coverage
is carried as its raw bit pattern (`write_f64` writes exactly the IEEE-754
bits, so byte-level identity is bit-pattern identity). -/

/-- The sidecar (`.meta`) byte record written by `ImageManager::write`. -/
def metaBytes (startDate endDate : Int) (coverageBits : Nat) : List Nat :=
  i64ToBytesBE startDate ++ i64ToBytesBE endDate ++ natToBytesBE 8 coverageBits

/-- Sequential `read_i64::<BigEndian>` on a byte stream. -/
def readI64BE (l : List Nat) : Option (Int × List Nat) :=
  if 8 ≤ l.length then some (bytesToI64BE (l.take 8), l.drop 8) else none

/-- Sequential `read_f64::<BigEndian>` on a byte stream (bit pattern). -/
def readF64BE (l : List Nat) : Option (Nat × List Nat) :=
  if 8 ≤ l.length then some (bytesToNatBE (l.take 8), l.drop 8) else none

/-- The metadata reads performed by `ImageManager::search` on one `.meta`
file: `read_i64` (start), `read_i64` (end), `read_f64` (coverage). -/
def searchReadMeta (l : List Nat) : Option (Int × Int × Nat) :=
  match readI64BE l with
  | none => none
  | some (startDate, r1) =>
    match readI64BE r1 with
    | none => none
    | some (endDate, r2) =>
      match readF64BE r2 with
      | none => none
      | some (coverageBits, _) => some (startDate, endDate, coverageBits)

/-! ## On-disk store model (`ImageManager`, `src/impl/stipd/src/image.rs`)

The filesystem is modelled as an association list from paths (component
lists, relative to the store's root directory) to file contents (byte
lists).  `ImageManager::write`'s fallible steps are driven by an
environment of injected failure outcomes, one per fallible call in the
source; `unwrap`ed calls panic instead of returning an error. -/

/-- A path, as the list of components pushed onto the root `PathBuf`. -/
abbrev FsPath := List String

/-- The local filesystem: path ↦ file bytes. -/
abbrev Fs := List (FsPath × List Nat)

/-- Create-or-truncate a file at `p` with content `c`
(`File::create` + writes, or GDAL `create_copy`): replaces an existing
entry, appends a new one otherwise. -/
def fsWrite (fs : Fs) (p : FsPath) (c : List Nat) : Fs :=
  match fs with
  | [] => [(p, c)]
  | (p', c') :: rest =>
    if p' = p then (p, c) :: rest else (p', c') :: fsWrite rest p c

/-- Content of the file at `p`, if present. -/
def fsRead (fs : Fs) (p : FsPath) : Option (List Nat) :=
  match fs with
  | [] => none
  | (p', c') :: rest => if p' = p then some c' else fsRead rest p

/-- Index of the last `.` in a character list, if any. -/
def lastDotIdx (cs : List Char) : Option Nat :=
  match cs with
  | [] => none
  | c :: rest =>
    match lastDotIdx rest with
    | some i => some (i + 1)
    | none => if c = '.' then some 0 else none

/-- Rust `PathBuf::set_extension` on a file name: replace everything after
the last `.` (provided it is not the leading character, in which case the
name has no extension and the new one is appended). -/
def setExtension (name : String) (ext : String) : String :=
  match lastDotIdx name.data with
  | some i =>
    if i = 0 then name ++ "." ++ ext
    else ⟨name.data.take i⟩ ++ "." ++ ext
  | none => name ++ "." ++ ext

/-- Directory part of the path built by `ImageManager::write`:
`self.directory/platform/geohash/band/dataset`.  Note: no album level. -/
def imageDir (platform geohash band dataset : String) : FsPath :=
  [platform, geohash, band, dataset]

/-- Path of the GeoTIFF file written by `ImageManager::write`:
`push(tile)` followed by `set_extension("tif")`. -/
def tifPath (platform geohash band dataset tile : String) : FsPath :=
  imageDir platform geohash band dataset ++ [setExtension tile "tif"]

/-- Path of the metadata sidecar: `set_extension("meta")` applied to the
tif path's file name. -/
def metaPath (platform geohash band dataset tile : String) : FsPath :=
  imageDir platform geohash band dataset ++
    [setExtension (setExtension tile "tif") "meta"]

/-- Injected outcomes for the fallible steps of `ImageManager::write`, in
source order.  `metaWriteFailsAt = some i` makes the `i`-th of the three
sidecar field writes fail after the earlier ones succeeded. -/
structure WriteEnv where
  createDirFails : Bool
  createCopyFails : Bool
  createMetaFails : Bool
  metaWriteFailsAt : Option (Fin 3)
deriving DecidableEq

/-- The all-success environment. -/
def envOk : WriteEnv := ⟨false, false, false, none⟩

/-- Result of a call to `ImageManager::write`: `ok`/`err` carry the
filesystem left behind; `panicked` marks the `unwrap` on
`create_copy` (and `Driver::get`) aborting the thread, with the
filesystem as it stood. -/
inductive WriteResult where
  | ok (fs : Fs)
  | err (fs : Fs)
  | panicked (fs : Fs)
deriving DecidableEq

/-- Shallow embedding of `ImageManager::write` (image.rs lines 34-63):
create directories, `create_copy` the GeoTIFF (unwrap — panics on codec
failure), `File::create` the sidecar at its final path, then three
big-endian field writes.  There is no temporary file, no rename, and no
cleanup of already-written files on failure. -/
def imageWrite (env : WriteEnv) (fs : Fs)
    (platform geohash band dataset tile : String)
    (startDate endDate : Int) (coverageBits : Nat) (raster : List Nat) :
    WriteResult :=
  if env.createDirFails then .err fs
  else if env.createCopyFails then .panicked fs
  else
    let fs1 := fsWrite fs (tifPath platform geohash band dataset tile) raster
    if env.createMetaFails then .err fs1
    else
      let mp := metaPath platform geohash band dataset tile
      let fs2 := fsWrite fs1 mp []
      match env.metaWriteFailsAt with
      | some ⟨0, _⟩ => .err fs2
      | some ⟨1, _⟩ => .err (fsWrite fs2 mp (i64ToBytesBE startDate))
      | some ⟨2, _⟩ =>
        .err (fsWrite fs2 mp (i64ToBytesBE startDate ++ i64ToBytesBE endDate))
      | none =>
        .ok (fsWrite fs2 mp (metaBytes startDate endDate coverageBits))

/-! ## Spec-side definitions (for refinement comparison only)

These two definitions follow the words of the specification, not the
source; they exist to be compared against the source-derived definitions
above. -/

/-- The sidecar layout claimed by the spec (§4.A): a 32-byte record
`start_timestamp / end_timestamp / pixel_coverage / cloud_coverage`. -/
def specMetaBytes (startTs endTs : Int) (pcovBits ccovBits : Nat) : List Nat :=
  i64ToBytesBE startTs ++ i64ToBytesBE endTs ++
    natToBytesBE 8 pcovBits ++ natToBytesBE 8 ccovBits

/-- The image path layout claimed by the spec (§4.A):
`<root>/<album>/<platform>/<geocode>/<band>/<source>/<tile>-<subds>.tif`. -/
def specTifPath (album platform geocode band source tile : String)
    (subds : Nat) : FsPath :=
  [album, platform, geocode, band, source,
    tile ++ "-" ++ toString subds ++ ".tif"]

/-! ## Transfer protocol (`src/impl/node/src/transfer.rs`)

Strings travel as their UTF-8 bytes.  The external raster codec
(`st_image::write` / `st_image::read`) is treated as the identity on its
self-delimited payload: the sender appends the payload bytes, the
receiver consumes the remainder of the stream. -/

/-- Is `b` a UTF-8 continuation byte (`0x80..0xBF`)? -/
def isCont (b : Nat) : Bool := 128 ≤ b && b ≤ 191

/-- RFC 3629 UTF-8 validity of a byte sequence — the check performed by
`String::from_utf8` on the receiver. -/
def validUtf8 : List Nat → Bool
  | [] => true
  | b :: rest =>
    if b ≤ 127 then validUtf8 rest
    else if 194 ≤ b && b ≤ 223 then
      match rest with
      | c1 :: r => isCont c1 && validUtf8 r
      | [] => false
    else if b = 224 then
      match rest with
      | c1 :: c2 :: r => (160 ≤ c1 && c1 ≤ 191) && isCont c2 && validUtf8 r
      | _ => false
    else if (225 ≤ b && b ≤ 236) || b = 238 || b = 239 then
      match rest with
      | c1 :: c2 :: r => isCont c1 && isCont c2 && validUtf8 r
      | _ => false
    else if b = 237 then
      match rest with
      | c1 :: c2 :: r => (128 ≤ c1 && c1 ≤ 159) && isCont c2 && validUtf8 r
      | _ => false
    else if b = 240 then
      match rest with
      | c1 :: c2 :: c3 :: r =>
        (144 ≤ c1 && c1 ≤ 191) && isCont c2 && isCont c3 && validUtf8 r
      | _ => false
    else if 241 ≤ b && b ≤ 243 then
      match rest with
      | c1 :: c2 :: c3 :: r =>
        isCont c1 && isCont c2 && isCont c3 && validUtf8 r
      | _ => false
    else if b = 244 then
      match rest with
      | c1 :: c2 :: c3 :: r =>
        (128 ≤ c1 && c1 ≤ 143) && isCont c2 && isCont c3 && validUtf8 r
      | _ => false
    else false

/-- One length-prefixed string read by the receiver: `read_u8` for the
length, `read_exact` for the bytes (fails if the stream is short), then
`String::from_utf8` (fails on invalid UTF-8). -/
def readLenStr (l : List Nat) : Option (List Nat × List Nat) :=
  match l with
  | [] => none
  | len :: r =>
    if len ≤ r.length then
      if validUtf8 (r.take len) then some (r.take len, r.drop len) else none
    else none

/-- The three string reads of the receiver's `Write` branch, in source
order: platform, geohash, tile.  Returns the strings and the remaining
stream (handed to `st_image::read`). -/
def recvHeader (l : List Nat) :
    Option ((List Nat × List Nat × List Nat) × List Nat) :=
  match readLenStr l with
  | none => none
  | some (platform, r1) =>
    match readLenStr r1 with
    | none => none
    | some (geohash, r2) =>
      match readLenStr r2 with
      | none => none
      | some (tile, r3) => some ((platform, geohash, tile), r3)

/-- The arguments the receiver passes to `DataManager::write_image`. -/
structure WriteCall where
  platform : List Nat
  geohash : List Nat
  tile : List Nat
  dataset : List Nat
deriving DecidableEq

/-- Result of `TransferStreamHandler::process`: op byte `0x00` (`Read`)
hits `unimplemented!()` (panic); op byte `0x01` (`Write`) parses the
header and calls `write_image`; anything else is an error, as is any
failed read or invalid UTF-8. -/
inductive RecvResult where
  | panicked
  | errored
  | ok (c : WriteCall)
deriving DecidableEq

/-- Shallow embedding of `TransferStreamHandler::process`
(transfer.rs lines 33-68). -/
def processStream (l : List Nat) : RecvResult :=
  match l with
  | [] => .errored
  | op :: r =>
    if op = 0 then .panicked
    else if op = 1 then
      match recvHeader r with
      | none => .errored
      | some ((platform, geohash, tile), rest) => .ok ⟨platform, geohash, tile, rest⟩
    else .errored

/-- Shallow embedding of `send_image` (transfer.rs lines 71-91): op byte
`0x01`, then for each of platform, geohash, tile a `write_u8(len as u8)`
(truncating modulo 256) followed by the raw bytes, then the codec
payload. -/
def sendImageBytes (platform geohash tile dataset : List Nat) : List Nat :=
  [1] ++
  [platform.length % 256] ++ platform ++
  [geohash.length % 256] ++ geohash ++
  [tile.length % 256] ++ tile ++
  dataset

/-- The Write frame layout claimed by the spec (§4.B): op byte, SIX
length-prefixed strings (album, platform, geocode, band, source, tile), a
subdataset byte, two big-endian i64 timestamps, two big-endian f64
coverages, then the payload.  Written from the spec's words, for
comparison with `sendImageBytes`. -/
def specWriteFrame (album platform geocode band source tile : List Nat)
    (subds : Nat) (startTs endTs : Int) (pcovBits ccovBits : Nat)
    (payload : List Nat) : List Nat :=
  [1] ++
  [album.length % 256] ++ album ++
  [platform.length % 256] ++ platform ++
  [geocode.length % 256] ++ geocode ++
  [band.length % 256] ++ band ++
  [source.length % 256] ++ source ++
  [tile.length % 256] ++ tile ++
  [subds % 256] ++
  i64ToBytesBE startTs ++ i64ToBytesBE endTs ++
  natToBytesBE 8 pcovBits ++ natToBytesBE 8 ccovBits ++
  payload

/-! ## `DefaultHasher` (`std::collections::hash_map::DefaultHasher`)

The Sentinel-2 load pipeline computes its DHT key with
`DefaultHasher::new(); hasher.write(geohash.as_bytes()); hasher.finish()`.
Rust's `DefaultHasher` is SipHash-1-3 keyed with `(0, 0)`; we embed that
algorithm over `Nat` with explicit reduction modulo `2^64`. -/

/-- 64-bit wrapping addition. -/
def wadd (a b : Nat) : Nat := (a + b) % 2 ^ 64

/-- 64-bit left rotation. -/
def rotl64 (x n : Nat) : Nat :=
  ((x <<< n) % 2 ^ 64) ||| (x >>> (64 - n))

/-- The SipHash state: `(v0, v1, v2, v3)`. -/
abbrev SipState := Nat × Nat × Nat × Nat

/-- One SipRound. -/
def sipRound : SipState → SipState :=
  fun (v0, v1, v2, v3) =>
    let v0 := wadd v0 v1
    let v1 := rotl64 v1 13
    let v1 := v1 ^^^ v0
    let v0 := rotl64 v0 32
    let v2 := wadd v2 v3
    let v3 := rotl64 v3 16
    let v3 := v3 ^^^ v2
    let v0 := wadd v0 v3
    let v3 := rotl64 v3 21
    let v3 := v3 ^^^ v0
    let v2 := wadd v2 v1
    let v1 := rotl64 v1 17
    let v1 := v1 ^^^ v2
    let v2 := rotl64 v2 32
    (v0, v1, v2, v3)

/-- Compression of one 8-byte little-endian message word `m`
(SipHash-1-3: one SipRound per word). -/
def sipCompress (m : Nat) : SipState → SipState :=
  fun (v0, v1, v2, v3) =>
    let (w0, w1, w2, w3) := sipRound (v0, v1, v2, v3 ^^^ m)
    (w0 ^^^ m, w1, w2, w3)

/-- A little-endian 64-bit word from at most 8 bytes. -/
def leWord (bytes : List Nat) : Nat :=
  bytes.foldr (fun b a => a * 256 + b) 0

/-- Main SipHash-1-3 loop: full 8-byte blocks, then the final block of
the remaining bytes with the total length in the top byte, then the
`0xff` finalization and three SipRounds. -/
def sipHash13Go (totalLen : Nat) : List Nat → SipState → Nat
  | b0 :: b1 :: b2 :: b3 :: b4 :: b5 :: b6 :: b7 :: rest, st =>
    sipHash13Go totalLen rest
      (sipCompress (leWord [b0, b1, b2, b3, b4, b5, b6, b7]) st)
  | rest, st =>
    let m := leWord rest + (totalLen % 256) * 2 ^ 56
    let (v0, v1, v2, v3) := sipCompress m st
    let (w0, w1, w2, w3) := sipRound (sipRound (sipRound (v0, v1, v2 ^^^ 255, v3)))
    w0 ^^^ w1 ^^^ w2 ^^^ w3

/-- `DefaultHasher::new()` followed by `write(bytes)` and `finish()`:
SipHash-1-3 with both keys zero (the initial state is the bare SipHash
constants). -/
def defaultHash (bytes : List Nat) : Nat :=
  sipHash13Go bytes.length bytes
    (0x736f6d6570736575, 0x646f72616e646f6d, 0x6c7967656e657261, 0x7465646279746573)

/-! ## DHT `locate` (swarm crate; modelled from the spec)

The `swarm::prelude::Dht` implementation is not under `src/`; only its
caller is.  Modelled from the spec: "A set of entries
`{token: u64, node_id: u16, rpc_addr, xfer_addr}`; `locate(key)` returns
the entry whose token is the largest ≤ key, with wrap-around
(consistent-hashing style on a 64-bit ring)."  An entry is
`(token, (node_id, xfer_addr?))`; addresses are abstract `Nat`s. -/

/-- A DHT membership entry: token, node id, optional transfer address. -/
abbrev DhtEntry := Nat × Nat × Option Nat

/-- Fold step: keep the entry with the largest token among those seen. -/
def pickMaxTok (best : Option DhtEntry) (e : DhtEntry) : Option DhtEntry :=
  match best with
  | none => some e
  | some b => if b.1 < e.1 then some e else some b

/-- Modelled from the spec: `locate(key)` — the entry whose token is the
largest ≤ `key`; if no token is ≤ `key`, wrap around to the entry with
the largest token overall. -/
def locate (entries : List DhtEntry) (key : Nat) : Option DhtEntry :=
  match (entries.filter (fun e => e.1 ≤ key)).foldl pickMaxTok none with
  | some e => some e
  | none => entries.foldl pickMaxTok none

/-- The owner a node computes for a geocode: `locate` applied to the
`DefaultHasher` key of the geocode bytes (sentinel_2.rs lines 103-111). -/
def ownerOf (entries : List DhtEntry) (geocode : List Nat) : Option DhtEntry :=
  locate entries (defaultHash geocode)

/-! ## Sentinel-2 load pipeline (`src/impl/stipd/src/task/load/sentinel_2.rs`)

The per-record `process` function iterates subdatasets and, inside each,
the split windows the codec returns.  External outcomes (codec calls,
geocode encoding, the transfer connection) are injected per
window/subdataset; `unwrap`ed calls panic, `?`-propagated calls abort the
record with an error, and everything after a failed DHT lookup or a
failed transfer is a logged warning followed by `continue`. -/

/-- IEEE-754 equality with `0.0` on the raw bit pattern (`+0.0` or
`-0.0`) — the `pixel_coverage == 0f64` test. -/
def f64IsZero (bits : Nat) : Bool :=
  bits = 0 || bits = 2 ^ 63

/-- One split window as returned by `st_image::prelude::split`, with the
injected outcomes of the external calls made while processing it. -/
structure Window where
  /-- `geohash::encode(coordinate, precision)?` fails (record error). -/
  encodeFails : Bool
  /-- The geocode computed for the window's max corner. -/
  geocode : List Nat
  /-- `st_image::coverage(&dataset).unwrap()` fails (panic). -/
  covFails : Bool
  /-- Bit pattern of the computed pixel coverage. -/
  covBits : Nat
  /-- `crate::transfer::send_image` returns `Err` (warn, continue). -/
  sendFails : Bool
deriving DecidableEq

/-- One subdataset of the archive, with injected codec outcomes. -/
structure Subdataset where
  /-- `Dataset::open(&path).unwrap()` fails (panic). -/
  openFails : Bool
  /-- `st_image::prelude::split(..).unwrap()` fails (panic). -/
  splitFails : Bool
  /-- The subdataset description (passed to `send_image` as the band). -/
  description : List Nat
  /-- The split windows the codec returns. -/
  windows : List Window
deriving DecidableEq

/-- One image push performed by `send_image` from the load pipeline. -/
structure Send where
  addr : Nat
  band : List Nat
  geocode : List Nat
  covBits : Nat
  subIdx : Nat
deriving DecidableEq

/-- How the record's processing terminated: normally, with a propagated
error (`?`), or by a panic (`unwrap`). -/
inductive Term where
  | ok
  | errored
  | panicked
deriving DecidableEq

/-- The observable outcome: the successful sends, in order, and how the
run terminated. -/
structure Outcome where
  sends : List Send
  term : Term
deriving DecidableEq

/-- Processing of the window list of one subdataset, in source order:
geocode encode (`?`), coverage (`unwrap`), the `== 0.0` drop, the DHT
lookup (warn+continue on `None` and on a missing transfer address), and
the send (warn+continue on `Err`). -/
def processWindows (loc : Nat → Option (Nat × Option Nat))
    (band : List Nat) (subIdx : Nat) : List Window → Outcome
  | [] => ⟨[], .ok⟩
  | w :: ws =>
    if w.encodeFails then ⟨[], .errored⟩
    else if w.covFails then ⟨[], .panicked⟩
    else if f64IsZero w.covBits then processWindows loc band subIdx ws
    else
      match loc (defaultHash w.geocode) with
      | none => processWindows loc band subIdx ws
      | some (_, none) => processWindows loc band subIdx ws
      | some (_, some addr) =>
        let rest := processWindows loc band subIdx ws
        if w.sendFails then rest
        else ⟨⟨addr, band, w.geocode, w.covBits, subIdx⟩ :: rest.sends, rest.term⟩

/-- Processing of the subdataset list (`for (i, (name, description)) in
subdatasets.iter().enumerate()`), threading the enumeration index. -/
def processSubdatasets (loc : Nat → Option (Nat × Option Nat)) :
    Nat → List Subdataset → Outcome
  | _, [] => ⟨[], .ok⟩
  | i, sub :: rest =>
    if sub.openFails then ⟨[], .panicked⟩
    else if sub.splitFails then ⟨[], .panicked⟩
    else
      let o := processWindows loc sub.description i sub.windows
      match o.term with
      | .ok =>
        let o' := processSubdatasets loc (i + 1) rest
        ⟨o.sends ++ o'.sends, o'.term⟩
      | _ => o

/-! ## Cluster search aggregation (`src/impl/stip/src/data.rs`, `search`)

The CLI aggregator folds every `Extent` received from every node into
five nested `BTreeMap`s and then prints the rows by nested in-order
iteration.  A `BTreeMap` is modelled as an association list strictly
sorted by key; `entry(k).or_insert(d)` followed by an update of the entry
is `updEntry k d f`.  Rust `String` ordering is byte-wise lexicographic,
which on UTF-8 agrees with `String.lt` here. -/

/-- `map.entry(k).or_insert(d)` followed by replacing the entry's value
`v` with `f v` (for a fresh entry, `f d`), on a sorted association
list. -/
def updEntry {K V : Type} [LinearOrder K] (k : K) (d : V) (f : V → V) :
    List (K × V) → List (K × V)
  | [] => [(k, f d)]
  | (k', v) :: rest =>
    if k < k' then (k, f d) :: (k', v) :: rest
    else if k = k' then (k', f v) :: rest
    else (k', v) :: updEntry k d f rest

/-- Lookup with default (the value `entry(k).or_insert(d)` would see). -/
def lookupD {K V : Type} [DecidableEq K] (l : List (K × V)) (k : K) (d : V) : V :=
  match l with
  | [] => d
  | (k', v) :: rest => if k' = k then v else lookupD rest k d

/-- One `Extent` streamed back from a node's `search`. -/
structure Extent where
  platform : String
  geohash : String
  band : String
  source : String
  precision : Nat
  count : Int
deriving DecidableEq

/-- The 5-level nested map built by the aggregator. -/
abbrev CountMap := List (Nat × Int)
abbrev SourceMap := List (String × CountMap)
abbrev BandMap := List (String × SourceMap)
abbrev GeohashMap := List (String × BandMap)
abbrev PlatformMap := List (String × GeohashMap)

/-- The fold body of the aggregation loop (data.rs lines 216-232):
`entry(platform) → entry(geohash) → entry(band) → entry(source) →
entry(precision).or_insert(0); *count += extent.count`. -/
def insertExtent (e : Extent) (m : PlatformMap) : PlatformMap :=
  updEntry e.platform [] (fun gm =>
    updEntry e.geohash [] (fun bm =>
      updEntry e.band [] (fun sm =>
        updEntry e.source [] (fun cm =>
          updEntry e.precision 0 (fun c => c + e.count) cm) sm) bm) gm) m

/-- The whole aggregation: every extent from every per-node stream, in
arrival order, folded into the initially empty map. -/
def aggregate (es : List Extent) : PlatformMap :=
  es.foldl (fun m e => insertExtent e m) []

/-- One printed row: platform, geohash, band, source, precision, count. -/
abbrev Row := String × String × String × String × Nat × Int

/-- Nested iteration, innermost two levels: a source entry's rows. -/
def rowsSource (sm : SourceMap) : List (String × Nat × Int) :=
  sm.flatMap (fun kv => kv.2.map (fun r => (kv.1, r)))

/-- Nested iteration over a band entry. -/
def rowsBand (bm : BandMap) : List (String × String × Nat × Int) :=
  bm.flatMap (fun kv => (rowsSource kv.2).map (fun r => (kv.1, r)))

/-- Nested iteration over a geohash entry. -/
def rowsGeohash (gm : GeohashMap) : List (String × String × String × Nat × Int) :=
  gm.flatMap (fun kv => (rowsBand kv.2).map (fun r => (kv.1, r)))

/-- The full output row list of the nested print loops
(data.rs lines 239-251). -/
def rowsPlatform (m : PlatformMap) : List Row :=
  m.flatMap (fun kv => (rowsGeohash kv.2).map (fun r => (kv.1, r)))

/-- Strict lexicographic order on the key part of a row (count, the last
component, is not part of the key). -/
def rowLt : Row → Row → Prop :=
  Prod.Lex (· < ·) (Prod.Lex (· < ·) (Prod.Lex (· < ·) (Prod.Lex (· < ·)
    (fun (a b : Nat × Int) => a.1 < b.1))))

/-- The key tuple of an extent. -/
def extentKey (e : Extent) : String × String × String × String × Nat :=
  (e.platform, e.geohash, e.band, e.source, e.precision)

/-- The cluster-wide multiset sum: total `count` of all input extents
with the given key. -/
def sumCounts (es : List Extent) (k : String × String × String × String × Nat) : Int :=
  ((es.filter (fun e => extentKey e = k)).map Extent.count).sum

/-- The aggregated count stored in the nested map for a key tuple. -/
def countOf (m : PlatformMap) (k : String × String × String × String × Nat) : Int :=
  lookupD (lookupD (lookupD (lookupD (lookupD m k.1 []) k.2.1 []) k.2.2.1 [])
    k.2.2.2.1 []) k.2.2.2.2 0

/-- Strict key-sortedness of one association-list level. -/
def keySorted {K V : Type} [LinearOrder K] (l : List (K × V)) : Prop :=
  l.Pairwise (fun a b => a.1 < b.1)

/-- Well-formedness of the nested map: every level strictly sorted. -/
def WFs (sm : SourceMap) : Prop := keySorted sm ∧ ∀ x ∈ sm, keySorted x.2

def WFb (bm : BandMap) : Prop := keySorted bm ∧ ∀ x ∈ bm, WFs x.2

def WFg (gm : GeohashMap) : Prop := keySorted gm ∧ ∀ x ∈ gm, WFb x.2

def WFp (m : PlatformMap) : Prop := keySorted m ∧ ∀ x ∈ m, WFg x.2

/-! ## Concrete demonstration data

Used by witnesses and counterexamples below.  Geocode byte lists are the
UTF-8 bytes of geohash strings over the base-32 alphabet (all ASCII):
`[57, 113, 56, 121, 121]` is "9q8yy", `[57, 113, 56, 121, 122]` is
"9q8yz", `[57, 113, 56, 121, 98]` is "9q8yb", `[57, 113, 56, 121]` is
"9q8y".  `0x3FE0000000000000 = 4602678819172646912` is the IEEE-754
pattern of `0.5`. -/

/-- A DHT lookup that sends every key to node 0 at transfer address 7. -/
def demoLoc : Nat → Option (Nat × Option Nat) := fun _ => some (0, some 7)

/-- A two-node membership snapshot with tokens `0` and `2^63`. -/
def demoEntries : List DhtEntry :=
  [(0, 0, some 10), (9223372036854775808, 1, some 11)]

/-- A window with coverage 0.5 and no injected failure. -/
def demoWinGood : Window :=
  ⟨false, [57, 113, 56, 121], false, 4602678819172646912, false⟩

/-- A window whose transfer connection fails. -/
def demoWinSendFail : Window :=
  ⟨false, [57, 113, 56, 121], false, 4602678819172646912, true⟩

/-- A window whose `st_image::coverage(..).unwrap()` fails. -/
def demoWinCovPanic : Window :=
  ⟨false, [57, 113, 56, 121], true, 0, false⟩

/-- A subdataset with a single good window. -/
def demoSub : Subdataset := ⟨false, false, [66], [demoWinGood]⟩

/-- A subdataset with a failing transfer followed by a good window. -/
def demoSubSendFail : Subdataset :=
  ⟨false, false, [66], [demoWinSendFail, demoWinGood]⟩

/-- A subdataset with a coverage panic followed by a good window. -/
def demoSubPanic : Subdataset :=
  ⟨false, false, [66], [demoWinCovPanic, demoWinGood]⟩

/-! ### Basic serialization lemmas -/

theorem natToBytesBE_length (k n : Nat) : (natToBytesBE k n).length = k := by
  induction k generalizing n with
  | zero => rfl
  | succ k ih => simp [natToBytesBE, ih]

theorem bytesToNatBE_append_singleton (xs : List Nat) (b : Nat) :
    bytesToNatBE (xs ++ [b]) = bytesToNatBE xs * 256 + b := by
  simp [bytesToNatBE, List.foldl_append]

theorem bytesToNatBE_natToBytesBE (k n : Nat) (h : n < 256 ^ k) :
    bytesToNatBE (natToBytesBE k n) = n := by
  induction k generalizing n with
  | zero =>
    simp [natToBytesBE, bytesToNatBE]
    omega
  | succ k ih =>
    have hdiv : n / 256 < 256 ^ k := by
      apply Nat.div_lt_of_lt_mul
      calc n < 256 ^ (k + 1) := h
        _ = 256 * 256 ^ k := by ring
    rw [natToBytesBE, bytesToNatBE_append_singleton, ih _ hdiv]
    omega

theorem bytesToI64BE_i64ToBytesBE (x : Int)
    (hlo : -(2 ^ 63) ≤ x) (hhi : x < 2 ^ 63) :
    bytesToI64BE (i64ToBytesBE x) = x := by
  have h64 : (2 : Int) ^ 64 = 18446744073709551616 := by norm_num
  have h63 : (2 : Int) ^ 63 = 9223372036854775808 := by norm_num
  have h63n : (2 : Nat) ^ 63 = 9223372036854775808 := by norm_num
  have h8 : (256 : Nat) ^ 8 = 18446744073709551616 := by norm_num
  rw [h63] at hhi
  rw [h63] at hlo
  have hmod : x.emod 18446744073709551616 =
      if 0 ≤ x then x else x + 18446744073709551616 := by
    split <;> rename_i hx
    · exact Int.emod_eq_of_lt hx (by omega)
    · have hshift : (x + 18446744073709551616).emod 18446744073709551616 =
          x.emod 18446744073709551616 := by
        have h := @Int.add_mul_emod_self_left x 18446744073709551616 1
        rw [mul_one] at h
        exact h
      have heq : (x + 18446744073709551616).emod 18446744073709551616 =
          x + 18446744073709551616 :=
        Int.emod_eq_of_lt (by omega) (by omega)
      omega
  have hnonneg : (0 : Int) ≤ x.emod 18446744073709551616 :=
    Int.emod_nonneg x (by norm_num)
  have hlt : (x.emod (2 ^ 64)).toNat < 256 ^ 8 := by
    rw [h64, h8]; omega
  rw [i64ToBytesBE, bytesToI64BE, bytesToNatBE_natToBytesBE 8 _ hlt]
  rw [h64] at hlt ⊢
  rw [h8] at hlt
  split <;> omega

theorem i64ToBytesBE_length (x : Int) : (i64ToBytesBE x).length = 8 :=
  natToBytesBE_length 8 _

theorem readI64BE_append (a rest : List Nat) (h : a.length = 8) :
    readI64BE (a ++ rest) = some (bytesToI64BE a, rest) := by
  have hlen : 8 ≤ (a ++ rest).length := by simp [h]
  rw [readI64BE, if_pos hlen, ← h, List.take_left, List.drop_left]

theorem readF64BE_append (a rest : List Nat) (h : a.length = 8) :
    readF64BE (a ++ rest) = some (bytesToNatBE a, rest) := by
  have hlen : 8 ≤ (a ++ rest).length := by simp [h]
  rw [readF64BE, if_pos hlen, ← h, List.take_left, List.drop_left]

theorem searchReadMeta_metaBytes (s e : Int) (c : Nat)
    (hs1 : -(2 ^ 63) ≤ s) (hs2 : s < 2 ^ 63)
    (he1 : -(2 ^ 63) ≤ e) (he2 : e < 2 ^ 63)
    (hc : c < 2 ^ 64) :
    searchReadMeta (metaBytes s e c) = some (s, e, c) := by
  have h1 : readI64BE (i64ToBytesBE s ++ (i64ToBytesBE e ++ natToBytesBE 8 c)) =
      some (bytesToI64BE (i64ToBytesBE s), i64ToBytesBE e ++ natToBytesBE 8 c) :=
    readI64BE_append _ _ (i64ToBytesBE_length s)
  have h2 : readI64BE (i64ToBytesBE e ++ natToBytesBE 8 c) =
      some (bytesToI64BE (i64ToBytesBE e), natToBytesBE 8 c) :=
    readI64BE_append _ _ (i64ToBytesBE_length e)
  have h3 : readF64BE (natToBytesBE 8 c ++ []) =
      some (bytesToNatBE (natToBytesBE 8 c), []) :=
    readF64BE_append _ _ (natToBytesBE_length 8 c)
  rw [List.append_nil] at h3
  have hc' : c < 256 ^ 8 := by norm_num; omega
  rw [metaBytes, List.append_assoc]
  simp only [searchReadMeta, h1, h2, h3]
  rw [bytesToI64BE_i64ToBytesBE s hs1 hs2, bytesToI64BE_i64ToBytesBE e he1 he2,
    bytesToNatBE_natToBytesBE 8 c hc']

/-- C1 (amended): the sidecar round-trips the three fields it actually
holds — start timestamp, end timestamp and pixel coverage — bit-exactly
(the coverage is carried as its raw IEEE-754 pattern, so every NaN
pattern round-trips as itself), and the record is 24 bytes, not 32;
there is no cloud_coverage field. -/
theorem sidecar_round_trip (s e : Int) (c : Nat)
    (hs1 : -(2 ^ 63) ≤ s) (hs2 : s < 2 ^ 63)
    (he1 : -(2 ^ 63) ≤ e) (he2 : e < 2 ^ 63)
    (hc : c < 2 ^ 64) :
    searchReadMeta (metaBytes s e c) = some (s, e, c) ∧
    (metaBytes s e c).length = 24 := by
  refine ⟨searchReadMeta_metaBytes s e c hs1 hs2 he1 he2 hc, ?_⟩
  simp [metaBytes, i64ToBytesBE_length, natToBytesBE_length]

/-- C1 witness: the round-trip theorem applied at a concrete record whose
coverage bits are the canonical quiet-NaN pattern `0x7FF8000000000000`. -/
theorem sidecar_round_trip_witness :
    searchReadMeta (metaBytes 1577836800 (-5) 9221120237041090560) =
      some (1577836800, -5, 9221120237041090560) ∧
    (metaBytes 1577836800 (-5) 9221120237041090560).length = 24 :=
  sidecar_round_trip 1577836800 (-5) 9221120237041090560
    (by norm_num) (by norm_num) (by norm_num) (by norm_num) (by norm_num)

/-- C1 counterexample: at a concrete input the sidecar record written by
`ImageManager::write` is 24 bytes — three fields — and not the 32-byte
four-field record (with cloud_coverage) the claim describes. -/
theorem sidecar_not_32_bytes :
    (metaBytes 0 0 0).length = 24 ∧ (metaBytes 0 0 0).length ≠ 32 ∧
    (specMetaBytes 0 0 0 0).length = 32 := by decide

/-! ### Transfer protocol theorems -/

theorem readLenStr_append (s rest : List Nat)
    (h255 : s.length ≤ 255) (hv : validUtf8 s) :
    readLenStr (s.length % 256 :: (s ++ rest)) = some (s, rest) := by
  have hmod : s.length % 256 = s.length := Nat.mod_eq_of_lt (by omega)
  have hle : s.length ≤ (s ++ rest).length := by simp
  have htake : (s ++ rest).take s.length = s := List.take_left s rest
  have hdrop : (s ++ rest).drop s.length = rest := List.drop_left s rest
  simp only [readLenStr, hmod, htake, hdrop, if_pos hle, hv, if_pos]

theorem recvHeader_frame (p g t d : List Nat)
    (hp : p.length ≤ 255) (hg : g.length ≤ 255) (ht : t.length ≤ 255)
    (hvp : validUtf8 p) (hvg : validUtf8 g) (hvt : validUtf8 t) :
    recvHeader (p.length % 256 :: (p ++ (g.length % 256 :: (g ++
      (t.length % 256 :: (t ++ d)))))) = some ((p, g, t), d) := by
  have h1 := readLenStr_append p (g.length % 256 :: (g ++ (t.length % 256 :: (t ++ d)))) hp hvp
  have h2 := readLenStr_append g (t.length % 256 :: (t ++ d)) hg hvg
  have h3 := readLenStr_append t d ht hvt
  simp only [recvHeader, h1, h2, h3]

/-- C3 (amended): a Write transfer frame is op byte `0x01` followed by
exactly THREE length-prefixed strings — platform, geohash, tile — and then
the raster payload; `send_image` emits exactly this header and the
receiver's `process` parses back exactly these three strings and hands the
remainder to the codec.  There is no album, band, source, subdataset
index, timestamp or coverage field in the frame. -/
theorem transfer_frame_layout (p g t d : List Nat)
    (hp : p.length ≤ 255) (hg : g.length ≤ 255) (ht : t.length ≤ 255)
    (hvp : validUtf8 p) (hvg : validUtf8 g) (hvt : validUtf8 t) :
    sendImageBytes p g t d =
      1 :: (p.length % 256 :: (p ++ (g.length % 256 :: (g ++
        (t.length % 256 :: (t ++ d)))))) ∧
    recvHeader (p.length % 256 :: (p ++ (g.length % 256 :: (g ++
      (t.length % 256 :: (t ++ d)))))) = some ((p, g, t), d) := by
  refine ⟨?_, recvHeader_frame p g t d hp hg ht hvp hvg hvt⟩
  simp [sendImageBytes]

/-- C3 witness: the layout theorem applied to the concrete strings
"a", "b", "c" with payload bytes `[9, 9]`. -/
theorem transfer_frame_layout_witness :
    sendImageBytes [97] [98] [99] [9, 9] =
      1 :: ([97].length % 256 :: ([97] ++ ([98].length % 256 :: ([98] ++
        ([99].length % 256 :: ([99] ++ [9, 9])))))) ∧
    recvHeader ([97].length % 256 :: ([97] ++ ([98].length % 256 :: ([98] ++
      ([99].length % 256 :: ([99] ++ [9, 9])))))) = some (([97], [98], [99]), [9, 9]) :=
  transfer_frame_layout [97] [98] [99] [9, 9]
    (by decide) (by decide) (by decide) (by decide) (by decide) (by decide)

/-- C3 counterexample: the concrete 7-byte frame `send_image` emits for
platform "a", geohash "b", tile "c" with an empty payload cannot equal any
instance of the spec's claimed header, which is at least 40 bytes long. -/
theorem transfer_frame_not_spec_header :
    (sendImageBytes [97] [98] [99] []).length = 7 ∧
    ¬ ∃ album band source subds startTs endTs pcov ccov payload,
      sendImageBytes [97] [98] [99] [] =
        specWriteFrame album [97] [98] band source [99] subds startTs endTs
          pcov ccov payload := by
  constructor
  · decide
  · rintro ⟨a, b, s, i, t1, t2, c1, c2, pay, h⟩
    have hlen := congrArg List.length h
    simp [sendImageBytes, specWriteFrame, natToBytesBE_length,
      i64ToBytesBE_length] at hlen
    omega

/-- C10: for strings of at most 255 UTF-8 bytes, the receiver decodes from
`send_image`'s byte stream exactly the senders' platform, geohash and tile
and passes them unchanged (with the payload) to `DataManager::write_image`;
for a longer string the `len as u8` prefix truncates modulo 256 and the
round-trip fails — shown for a 256-byte platform string. -/
theorem transfer_three_string_round_trip :
    (∀ p g t d, p.length ≤ 255 → g.length ≤ 255 → t.length ≤ 255 →
      validUtf8 p → validUtf8 g → validUtf8 t →
      processStream (sendImageBytes p g t d) = .ok ⟨p, g, t, d⟩) ∧
    (List.replicate 256 97).length % 256 = 0 ∧
    processStream (sendImageBytes (List.replicate 256 97) [98] [99] []) ≠
      .ok ⟨List.replicate 256 97, [98], [99], []⟩ := by
  refine ⟨?_, by decide, by decide⟩
  intro p g t d hp hg ht hvp hvg hvt
  have hrecv := recvHeader_frame p g t d hp hg ht hvp hvg hvt
  simp only [sendImageBytes, processStream, List.cons_append, List.nil_append,
    List.singleton_append]
  norm_num
  simp only [List.cons_append] at hrecv ⊢
  rw [hrecv]

/-- C10 witness: the round-trip applied to the concrete strings "a", "b",
"c" and payload `[5]`. -/
theorem transfer_three_string_round_trip_witness :
    processStream (sendImageBytes [97] [98] [99] [5]) =
      .ok ⟨[97], [98], [99], [5]⟩ :=
  transfer_three_string_round_trip.1 [97] [98] [99] [5]
    (by decide) (by decide) (by decide) (by decide) (by decide) (by decide)

/-! ### Image store path and write theorems -/

theorem lastDotIdx_of_no_dot (l : List Char) (h : '.' ∉ l) :
    lastDotIdx l = none := by
  induction l with
  | nil => rfl
  | cons c rest ih =>
    rw [List.mem_cons, not_or] at h
    rw [lastDotIdx, ih h.2, if_neg (fun hc => h.1 hc.symm)]

theorem lastDotIdx_append_dot (a b : List Char) (h : '.' ∉ b) :
    lastDotIdx (a ++ '.' :: b) = some a.length := by
  induction a with
  | nil => simp [lastDotIdx, lastDotIdx_of_no_dot b h]
  | cons c a' ih => rw [List.cons_append, lastDotIdx, ih]; rfl

theorem string_data_append (a b : String) : (a ++ b).data = a.data ++ b.data :=
  rfl

theorem string_append_assoc (a b c : String) : a ++ b ++ c = a ++ (b ++ c) := by
  cases a with | mk la =>
  cases b with | mk lb =>
  cases c with | mk lc =>
  show String.mk (la ++ lb ++ lc) = String.mk (la ++ (lb ++ lc))
  rw [List.append_assoc]

theorem setExtension_no_dot (name ext : String) (h : '.' ∉ name.data) :
    setExtension name ext = name ++ "." ++ ext := by
  rw [setExtension, lastDotIdx_of_no_dot name.data h]

theorem setExtension_replaces (stem e1 e2 : String)
    (hne : stem ≠ "") (he : '.' ∉ e1.data) :
    setExtension (stem ++ "." ++ e1) e2 = stem ++ "." ++ e2 := by
  have hdata : (stem ++ "." ++ e1).data = stem.data ++ '.' :: e1.data := by
    rw [string_data_append, string_data_append, List.append_assoc]
    rfl
  have hlen : stem.data.length ≠ 0 := by
    intro h0
    exact hne (congrArg String.mk (List.length_eq_zero.mp h0))
  rw [setExtension, hdata, lastDotIdx_append_dot _ _ he]
  simp only [if_neg hlen, List.take_left]

theorem tifPath_eq (platform geohash band dataset tile : String)
    (hnd : '.' ∉ tile.data) :
    tifPath platform geohash band dataset tile =
      [platform, geohash, band, dataset, tile ++ ".tif"] := by
  rw [tifPath, imageDir, setExtension_no_dot tile "tif" hnd,
    string_append_assoc]
  rfl

theorem metaPath_eq (platform geohash band dataset tile : String)
    (hne : tile ≠ "") (hnd : '.' ∉ tile.data) :
    metaPath platform geohash band dataset tile =
      [platform, geohash, band, dataset, tile ++ ".meta"] := by
  rw [metaPath, imageDir, setExtension_no_dot tile "tif" hnd,
    setExtension_replaces tile "tif" "meta" hne (by decide),
    string_append_assoc]
  rfl

theorem fsRead_fsWrite_self (fs : Fs) (p : FsPath) (c : List Nat) :
    fsRead (fsWrite fs p c) p = some c := by
  induction fs with
  | nil => simp [fsWrite, fsRead]
  | cons e rest ih =>
    obtain ⟨p', c'⟩ := e
    by_cases h : p' = p
    · simp [fsWrite, fsRead, h]
    · simp [fsWrite, fsRead, h, ih]

theorem fsRead_fsWrite_ne (fs : Fs) (p q : FsPath) (c : List Nat)
    (h : p ≠ q) : fsRead (fsWrite fs p c) q = fsRead fs q := by
  induction fs with
  | nil => simp [fsWrite, fsRead, h]
  | cons e rest ih =>
    obtain ⟨p', c'⟩ := e
    by_cases h' : p' = p
    · subst h'
      simp [fsWrite, fsRead, h]
    · simp [fsWrite, fsRead, h', ih]

/-- C4 (amended): with every step succeeding, `ImageManager::write` leaves
the GeoTIFF at the tif path and the sidecar at the meta path, silently
overwriting whatever was there before (for any prior filesystem state);
but the sidecar is written directly at its final path — there is no
temporary file and no rename — and on failure partial files are NOT
removed. -/
theorem image_write_success (fs : Fs)
    (platform geohash band dataset tile : String)
    (s e : Int) (c : Nat) (raster : List Nat)
    (hne : tile ≠ "") (hnd : '.' ∉ tile.data) :
    ∃ fs', imageWrite envOk fs platform geohash band dataset tile
        s e c raster = .ok fs' ∧
      fsRead fs' (tifPath platform geohash band dataset tile) = some raster ∧
      fsRead fs' (metaPath platform geohash band dataset tile) =
        some (metaBytes s e c) := by
  have hne' : tifPath platform geohash band dataset tile ≠
      metaPath platform geohash band dataset tile := by
    rw [tifPath_eq _ _ _ _ _ hnd, metaPath_eq _ _ _ _ _ hne hnd]
    intro h
    have h5 : tile ++ ".tif" = tile ++ ".meta" := by
      simpa using h
    have hlen := congrArg (fun x => x.data.length) h5
    simp [string_data_append] at hlen
  refine ⟨fsWrite (fsWrite
      (fsWrite fs (tifPath platform geohash band dataset tile) raster)
      (metaPath platform geohash band dataset tile) [])
      (metaPath platform geohash band dataset tile) (metaBytes s e c),
    rfl, ?_, ?_⟩
  · rw [fsRead_fsWrite_ne _ _ _ _ (fun h => hne' h.symm),
      fsRead_fsWrite_ne _ _ _ _ (fun h => hne' h.symm),
      fsRead_fsWrite_self]
  · rw [fsRead_fsWrite_self]

/-- C4 witness: the success/overwrite theorem applied to a concrete write
over a filesystem that already holds both files with other contents. -/
theorem image_write_success_witness :
    ∃ fs', imageWrite envOk
        [(["P", "G", "B", "S", "T.tif"], [7]), (["P", "G", "B", "S", "T.meta"], [8])]
        "P" "G" "B" "S" "T" 1 2 3 [4, 4] = .ok fs' ∧
      fsRead fs' (tifPath "P" "G" "B" "S" "T") = some [4, 4] ∧
      fsRead fs' (metaPath "P" "G" "B" "S" "T") = some (metaBytes 1 2 3) :=
  image_write_success _ "P" "G" "B" "S" "T" 1 2 3 [4, 4]
    (by decide) (by decide)

/-- C4 counterexample: when creating the sidecar file fails, `write`
returns an error but the freshly written `.tif` file is left behind — the
on-disk store is NOT unchanged on error, and no temp-file/rename step
exists to protect it. -/
theorem image_write_partial_left_on_error :
    imageWrite ⟨false, false, true, none⟩ [] "P" "G" "B" "S" "T" 0 0 0 [1, 2] =
      .err [(["P", "G", "B", "S", "T.tif"], [1, 2])] ∧
    ([(["P", "G", "B", "S", "T.tif"], [1, 2])] : Fs) ≠ [] := by decide

/-- C8 (amended): every persisted image lives at
`<root>/<platform>/<geocode>/<band>/<source>/<tile>.tif` with its sidecar
at `<tile>.meta` — there is no album level between the root and the
platform, and no `-<subdataset_index>` suffix on the file name. -/
theorem image_path_layout (platform geohash band dataset tile : String)
    (hne : tile ≠ "") (hnd : '.' ∉ tile.data) :
    tifPath platform geohash band dataset tile =
      [platform, geohash, band, dataset, tile ++ ".tif"] ∧
    metaPath platform geohash band dataset tile =
      [platform, geohash, band, dataset, tile ++ ".meta"] :=
  ⟨tifPath_eq platform geohash band dataset tile hnd,
    metaPath_eq platform geohash band dataset tile hne hnd⟩

/-- C8 witness: the path-layout theorem at concrete components. -/
theorem image_path_layout_witness :
    tifPath "P" "G" "B" "S" "T" = ["P", "G", "B", "S", "T.tif"] ∧
    metaPath "P" "G" "B" "S" "T" = ["P", "G", "B", "S", "T.meta"] :=
  image_path_layout "P" "G" "B" "S" "T" (by decide) (by decide)

/-- C8 counterexample: at concrete components the path built by
`ImageManager::write` has five levels and the plain `<tile>.tif` file
name, which differs from the spec's claimed six-level path with the
`<tile>-<subds>.tif` file name. -/
theorem image_path_no_album_no_subds :
    tifPath "P" "G" "B" "S" "T" = ["P", "G", "B", "S", "T.tif"] ∧
    specTifPath "A" "P" "G" "B" "S" "T" 0 = ["A", "P", "G", "B", "S", "T-0.tif"] ∧
    tifPath "P" "G" "B" "S" "T" ≠ specTifPath "A" "P" "G" "B" "S" "T" 0 := by
  refine ⟨by decide, ?_, by decide⟩
  simp [specTifPath]
  rfl

/-! ### Sentinel-2 load pipeline theorems -/

theorem processWindows_sends_nonzero (loc : Nat → Option (Nat × Option Nat))
    (band : List Nat) (subIdx : Nat) (ws : List Window) :
    ∀ s ∈ (processWindows loc band subIdx ws).sends,
      f64IsZero s.covBits = false := by
  induction ws with
  | nil => simp [processWindows]
  | cons w ws ih =>
    intro s hs
    simp only [processWindows] at hs
    split at hs
    · simp at hs
    · split at hs
      · simp at hs
      · split at hs
        · exact ih s hs
        · rename_i hzero
          split at hs
          · exact ih s hs
          · exact ih s hs
          · split at hs
            · exact ih s hs
            · rcases List.mem_cons.mp hs with hd | htl
              · subst hd
                simpa using hzero
              · exact ih s htl

theorem processWindows_sends_located (loc : Nat → Option (Nat × Option Nat))
    (band : List Nat) (subIdx : Nat) (ws : List Window) :
    ∀ s ∈ (processWindows loc band subIdx ws).sends,
      ∃ nid, loc (defaultHash s.geocode) = some (nid, some s.addr) := by
  induction ws with
  | nil => simp [processWindows]
  | cons w ws ih =>
    intro s hs
    simp only [processWindows] at hs
    split at hs
    · simp at hs
    · split at hs
      · simp at hs
      · split at hs
        · exact ih s hs
        · split at hs
          · exact ih s hs
          · exact ih s hs
          · rename_i nid addr hloc
            split at hs
            · exact ih s hs
            · rcases List.mem_cons.mp hs with hd | htl
              · subst hd
                exact ⟨nid, hloc⟩
              · exact ih s htl

theorem processSubdatasets_sends_nonzero
    (loc : Nat → Option (Nat × Option Nat)) (i : Nat)
    (subs : List Subdataset) :
    ∀ s ∈ (processSubdatasets loc i subs).sends,
      f64IsZero s.covBits = false := by
  induction subs generalizing i with
  | nil => simp [processSubdatasets]
  | cons sub rest ih =>
    intro s hs
    simp only [processSubdatasets] at hs
    split at hs
    · simp at hs
    · split at hs
      · simp at hs
      · split at hs
        · rcases List.mem_append.mp hs with hl | hr
          · exact processWindows_sends_nonzero loc sub.description i sub.windows s hl
          · exact ih (i + 1) s hr
        · exact processWindows_sends_nonzero loc sub.description i sub.windows s hs

/-- C5 (amended): every split window whose computed pixel coverage equals
0.0 (either IEEE-754 zero pattern) is dropped by the load pipeline before
routing: no send it performs carries a zero coverage.  (The store itself
does not enforce this: see the counterexample.) -/
theorem zero_coverage_windows_dropped
    (loc : Nat → Option (Nat × Option Nat)) (i : Nat)
    (subs : List Subdataset) :
    ∀ s ∈ (processSubdatasets loc i subs).sends,
      f64IsZero s.covBits = false :=
  processSubdatasets_sends_nonzero loc i subs

/-- C5 witness: the drop theorem applied to the send actually performed by
a concrete one-subdataset run. -/
theorem zero_coverage_windows_dropped_witness :
    f64IsZero (4602678819172646912 : Nat) = false :=
  zero_coverage_windows_dropped demoLoc 0 [demoSub]
    ⟨7, [66], [57, 113, 56, 121], 4602678819172646912, 0⟩ (by decide)

/-- C5 counterexample: `ImageManager::write` happily persists a record
whose pixel coverage is the 0.0 bit pattern — the store performs no
coverage check, so "no code path persists a zero-coverage image" fails at
the store boundary. -/
theorem store_persists_zero_coverage :
    imageWrite envOk [] "P" "G" "B" "S" "T" 0 0 0 [1] =
      .ok [(["P", "G", "B", "S", "T.tif"], [1]),
           (["P", "G", "B", "S", "T.meta"], metaBytes 0 0 0)] ∧
    searchReadMeta (metaBytes 0 0 0) = some (0, 0, 0) ∧
    f64IsZero 0 = true := by decide

/-- C2 (amended): the DHT key of every routed send is the 64-bit
`DefaultHasher` (SipHash-1-3, zero keys) value of the window's FULL
geocode as computed at the task precision — no `dht_key_length` prefix is
taken before hashing. -/
theorem routing_key_full_geocode
    (loc : Nat → Option (Nat × Option Nat)) (i : Nat)
    (subs : List Subdataset) :
    ∀ s ∈ (processSubdatasets loc i subs).sends,
      ∃ nid, loc (defaultHash s.geocode) = some (nid, some s.addr) := by
  induction subs generalizing i with
  | nil => simp [processSubdatasets]
  | cons sub rest ih =>
    intro s hs
    simp only [processSubdatasets] at hs
    split at hs
    · simp at hs
    · split at hs
      · simp at hs
      · split at hs
        · rcases List.mem_append.mp hs with hl | hr
          · exact processWindows_sends_located loc sub.description i sub.windows s hl
          · exact ih (i + 1) s hr
        · exact processWindows_sends_located loc sub.description i sub.windows s hs

/-- C2 witness: the routing theorem applied to the send performed by a
concrete run: its key is the hash of the full geocode "9q8y". -/
theorem routing_key_full_geocode_witness :
    ∃ nid, demoLoc (defaultHash [57, 113, 56, 121]) = some (nid, some 7) :=
  routing_key_full_geocode demoLoc 0 [demoSub]
    ⟨7, [66], [57, 113, 56, 121], 4602678819172646912, 0⟩ (by decide)

/-- C2 counterexample: "9q8yy" and "9q8yz" agree on every prefix of
length ≤ 4, yet their `DefaultHasher` keys differ — so for any
`dht_key_length ≤ 4` the characters beyond the prefix DO influence the
key, contradicting the claim that only the prefix is hashed. -/
theorem routing_key_uses_suffix :
    (∀ k, k < 5 → (List.take k [57, 113, 56, 121, 121] : List Nat) =
      List.take k [57, 113, 56, 121, 122]) ∧
    defaultHash [57, 113, 56, 121, 121] ≠ defaultHash [57, 113, 56, 121, 122] := by
  decide

/-! ### DHT placement theorems -/

theorem foldl_pickMaxTok_eq_or_mem (l : List DhtEntry) :
    ∀ acc e, l.foldl pickMaxTok acc = some e → acc = some e ∨ e ∈ l := by
  induction l with
  | nil =>
    intro acc e h
    exact Or.inl h
  | cons x rest ih =>
    intro acc e h
    rw [List.foldl_cons] at h
    rcases ih _ e h with hacc | hmem
    · cases acc with
      | none =>
        simp only [pickMaxTok] at hacc
        right
        exact List.mem_cons.mpr (Or.inl (Option.some_injective _ hacc).symm)
      | some b =>
        simp only [pickMaxTok] at hacc
        split at hacc
        · right
          exact List.mem_cons.mpr (Or.inl (Option.some_injective _ hacc).symm)
        · left
          exact hacc
    · right
      exact List.mem_cons_of_mem _ hmem

theorem locate_mem (entries : List DhtEntry) (key : Nat) (e : DhtEntry)
    (h : locate entries key = some e) : e ∈ entries := by
  rw [locate] at h
  split at h
  · rename_i e' heq
    rcases foldl_pickMaxTok_eq_or_mem _ none e' heq with hn | hm
    · exact absurd hn.symm (Option.some_ne_none e')
    · have := List.mem_filter.mp hm
      rw [Option.some_inj] at h
      exact h ▸ this.1
  · rcases foldl_pickMaxTok_eq_or_mem entries none e h with hn | hm
    · exact absurd hn.symm (Option.some_ne_none e)
    · exact hm

/-- C7 (amended): for a fixed membership snapshot the owner of a geocode
is a deterministic function of the `DefaultHasher` key of the FULL
geocode byte sequence (not of a `dht_key_length` prefix): geocodes with
equal keys get the same owner on every node, and any owner returned is a
member of the snapshot. -/
theorem placement_deterministic (entries : List DhtEntry) (g1 g2 : List Nat)
    (h : defaultHash g1 = defaultHash g2) :
    ownerOf entries g1 = ownerOf entries g2 ∧
    (∀ e, ownerOf entries g1 = some e → e ∈ entries) := by
  constructor
  · rw [ownerOf, ownerOf, h]
  · intro e he
    exact locate_mem entries (defaultHash g1) e he

/-- C7 witness: the determinism theorem applied to a concrete snapshot
and geocode. -/
theorem placement_deterministic_witness :
    ownerOf demoEntries [57, 113, 56, 121, 121] =
      ownerOf demoEntries [57, 113, 56, 121, 121] ∧
    (∀ e, ownerOf demoEntries [57, 113, 56, 121, 121] = some e →
      e ∈ demoEntries) :=
  placement_deterministic demoEntries [57, 113, 56, 121, 121]
    [57, 113, 56, 121, 121] rfl

/-- C7 counterexample: under the two-node snapshot with tokens
`{0, 2^63}`, the geocodes "9q8yy" and "9q8yb" share their 4-byte prefix
yet are owned by different nodes — so the owner is NOT
`locate(hash(prefix(geocode, k)))` for any `k ≤ 4`. -/
theorem placement_prefix_key_wrong :
    (List.take 4 [57, 113, 56, 121, 121] : List Nat) =
      List.take 4 [57, 113, 56, 121, 98] ∧
    ownerOf demoEntries [57, 113, 56, 121, 121] =
      some (9223372036854775808, 1, some 11) ∧
    ownerOf demoEntries [57, 113, 56, 121, 98] = some (0, 0, some 10) ∧
    ownerOf demoEntries [57, 113, 56, 121, 121] ≠
      ownerOf demoEntries [57, 113, 56, 121, 98] := by decide

/-- C9 helper: a window list free of codec failures always finishes with
`ok`, whatever the transfer outcomes are. -/
theorem processWindows_term_ok (loc : Nat → Option (Nat × Option Nat))
    (band : List Nat) (subIdx : Nat) (ws : List Window)
    (h : ∀ w ∈ ws, w.encodeFails = false ∧ w.covFails = false) :
    (processWindows loc band subIdx ws).term = .ok := by
  induction ws with
  | nil => rfl
  | cons w ws ih =>
    obtain ⟨⟨h1, h2⟩, hrest⟩ := List.forall_mem_cons.mp h
    have ihh := ih hrest
    rw [processWindows, h1, h2]
    simp only [Bool.false_eq_true, if_false]
    split
    · exact ihh
    · split
      · exact ihh
      · exact ihh
      · split
        · exact ihh
        · exact ihh

/-- C9 (amended): a failed transfer connection (or a routing gap) is a
logged warning and a dropped tile; it never changes the run's
termination — with no codec failure injected, the subdataset loop always
terminates normally regardless of which sends fail.  (Codec open/split/
coverage failures instead panic the worker: see the counterexample.
`items_skipped` is not incremented for window-level drops in this
version.) -/
theorem transfer_error_keeps_task_ok
    (loc : Nat → Option (Nat × Option Nat)) (i : Nat)
    (subs : List Subdataset)
    (h : ∀ sub ∈ subs, sub.openFails = false ∧ sub.splitFails = false ∧
      ∀ w ∈ sub.windows, w.encodeFails = false ∧ w.covFails = false) :
    (processSubdatasets loc i subs).term = .ok := by
  induction subs generalizing i with
  | nil => rfl
  | cons sub rest ih =>
    obtain ⟨⟨ho, hsp, hw⟩, hrest⟩ := List.forall_mem_cons.mp h
    have hterm := processWindows_term_ok loc sub.description i sub.windows hw
    rw [processSubdatasets, ho, hsp]
    simp only [Bool.false_eq_true, if_false]
    split
    · exact ih (i + 1) hrest
    · exact hterm

/-- C9 witness: a run whose first window's transfer fails still
terminates `ok`. -/
theorem transfer_error_keeps_task_ok_witness :
    (processSubdatasets demoLoc 0 [demoSubSendFail]).term = Term.ok :=
  transfer_error_keeps_task_ok demoLoc 0 [demoSubSendFail] (by decide)

/-- C9 counterexample: a coverage `unwrap` failure does not warn-and-skip
the one tile — it panics the worker, the following good window is never
routed, and the run does not terminate normally (so the task does not
stay on the Complete path). -/
theorem codec_error_panics_worker :
    processSubdatasets demoLoc 0 [demoSubPanic] = ⟨[], Term.panicked⟩ ∧
    Term.panicked ≠ Term.ok := by decide

/-! ### Search aggregation theorems -/

theorem mem_updEntry_keys {K V : Type} [LinearOrder K] (k : K) (d : V)
    (f : V → V) (l : List (K × V)) (x : K × V) (hx : x ∈ updEntry k d f l) :
    x.1 = k ∨ x.1 ∈ l.map Prod.fst := by
  induction l with
  | nil =>
    simp only [updEntry, List.mem_singleton] at hx
    exact Or.inl (by rw [hx])
  | cons kv rest ih =>
    obtain ⟨k', v⟩ := kv
    simp only [updEntry] at hx
    split at hx
    · rcases List.mem_cons.mp hx with hd | htl
      · exact Or.inl (by rw [hd])
      · exact Or.inr (by
          rcases List.mem_cons.mp htl with hd' | htl'
          · simp [hd']
          · simp only [List.map_cons, List.mem_cons]
            exact Or.inr (List.mem_map_of_mem Prod.fst htl'))
    · split at hx
      · rename_i hlt heq
        rcases List.mem_cons.mp hx with hd | htl
        · exact Or.inl (by rw [hd, heq])
        · exact Or.inr (by
            simp only [List.map_cons, List.mem_cons]
            exact Or.inr (List.mem_map_of_mem Prod.fst htl))
      · rcases List.mem_cons.mp hx with hd | htl
        · exact Or.inr (by simp [hd])
        · rcases ih htl with h1 | h2
          · exact Or.inl h1
          · exact Or.inr (by
              simp only [List.map_cons, List.mem_cons]
              exact Or.inr h2)

theorem updEntry_keySorted {K V : Type} [LinearOrder K] (k : K) (d : V)
    (f : V → V) (l : List (K × V)) (h : keySorted l) :
    keySorted (updEntry k d f l) := by
  induction l with
  | nil => simp [updEntry, keySorted]
  | cons kv rest ih =>
    obtain ⟨k', v⟩ := kv
    rw [keySorted, List.pairwise_cons] at h
    obtain ⟨hhead, htail⟩ := h
    rw [updEntry]
    split
    · rename_i hlt
      rw [keySorted, List.pairwise_cons]
      refine ⟨?_, ?_⟩
      · intro x hx
        rcases List.mem_cons.mp hx with hd | htl
        · rw [hd]; exact hlt
        · exact lt_trans hlt (hhead x htl)
      · rw [List.pairwise_cons]
        exact ⟨hhead, htail⟩
    · split
      · rw [keySorted, List.pairwise_cons]
        exact ⟨hhead, htail⟩
      · rename_i hnlt hne
        rw [keySorted, List.pairwise_cons]
        refine ⟨?_, ih htail⟩
        intro x hx
        rcases mem_updEntry_keys k d f rest x hx with h1 | h2
        · rw [h1]
          rcases lt_trichotomy k k' with hc | hc | hc
          · exact absurd hc hnlt
          · exact absurd hc hne
          · exact hc
        · obtain ⟨y, hy, hyx⟩ := List.mem_map.mp h2
          rw [← hyx]
          exact hhead y hy

theorem updEntry_values {K V : Type} [LinearOrder K] (P : V → Prop) (k : K)
    (d : V) (f : V → V) (l : List (K × V))
    (hl : ∀ x ∈ l, P x.2) (hd : P (f d)) (hf : ∀ v, P v → P (f v)) :
    ∀ x ∈ updEntry k d f l, P x.2 := by
  induction l with
  | nil =>
    intro x hx
    simp only [updEntry, List.mem_singleton] at hx
    rw [hx]
    exact hd
  | cons kv rest ih =>
    obtain ⟨k', v⟩ := kv
    intro x hx
    simp only [updEntry] at hx
    split at hx
    · rcases List.mem_cons.mp hx with hd' | htl
      · rw [hd']; exact hd
      · exact hl x htl
    · split at hx
      · rcases List.mem_cons.mp hx with hd' | htl
        · rw [hd']
          exact hf v (hl (k', v) (by simp))
        · exact hl x (List.mem_cons_of_mem _ htl)
      · rcases List.mem_cons.mp hx with hd' | htl
        · rw [hd']
          exact hl (k', v) (by simp)
        · exact ih (fun y hy => hl y (List.mem_cons_of_mem _ hy)) x htl

theorem lookupD_eq_default {K V : Type} [DecidableEq K] (l : List (K × V))
    (k : K) (d : V) (h : ∀ x ∈ l, x.1 ≠ k) : lookupD l k d = d := by
  induction l with
  | nil => rfl
  | cons kv rest ih =>
    obtain ⟨k', v⟩ := kv
    rw [lookupD, if_neg (h (k', v) (by simp))]
    exact ih (fun y hy => h y (List.mem_cons_of_mem _ hy))

theorem lookupD_prop {K V : Type} [DecidableEq K] (P : V → Prop)
    (l : List (K × V)) (k : K) (d : V)
    (hl : ∀ x ∈ l, P x.2) (hd : P d) : P (lookupD l k d) := by
  induction l with
  | nil => exact hd
  | cons kv rest ih =>
    obtain ⟨k', v⟩ := kv
    rw [lookupD]
    split
    · exact hl (k', v) (by simp)
    · exact ih (fun y hy => hl y (List.mem_cons_of_mem _ hy))

theorem lookupD_updEntry_self {K V : Type} [LinearOrder K] [DecidableEq K]
    (k : K) (d : V)
    (f : V → V) (l : List (K × V)) (h : keySorted l) :
    lookupD (updEntry k d f l) k d = f (lookupD l k d) := by
  induction l with
  | nil => simp [updEntry, lookupD]
  | cons kv rest ih =>
    obtain ⟨k', v⟩ := kv
    rw [keySorted, List.pairwise_cons] at h
    obtain ⟨hhead, htail⟩ := h
    rw [updEntry]
    split
    · rename_i hlt
      rw [lookupD, if_pos rfl, lookupD, if_neg (ne_of_gt hlt), lookupD_eq_default]
      intro x hx
      exact ne_of_gt (lt_trans hlt (hhead x hx))
    · split
      · rename_i hnlt heq
        subst heq
        rw [lookupD, if_pos rfl, lookupD, if_pos rfl]
      · rename_i hnlt hne
        have hne' : k' ≠ k := fun hh => hne hh.symm
        rw [lookupD, if_neg hne', lookupD, if_neg hne']
        exact ih htail

theorem lookupD_updEntry_ne {K V : Type} [LinearOrder K] [DecidableEq K]
    (k : K) (d : V)
    (f : V → V) (l : List (K × V)) (k₀ : K) (d₀ : V) (hne : k₀ ≠ k) :
    lookupD (updEntry k d f l) k₀ d₀ = lookupD l k₀ d₀ := by
  induction l with
  | nil =>
    show lookupD [(k, f d)] k₀ d₀ = d₀
    rw [lookupD, if_neg (fun hh => hne hh.symm)]
    rfl
  | cons kv rest ih =>
    obtain ⟨k', v⟩ := kv
    rw [updEntry]
    split
    · rw [lookupD, if_neg (fun hh => hne hh.symm), lookupD]
    · split
      · rename_i hnlt heq
        subst heq
        rw [lookupD, lookupD, if_neg (fun hh => hne hh.symm),
          if_neg (fun hh => hne hh.symm)]
      · rw [lookupD, lookupD]
        split
        · rfl
        · exact ih

theorem WFs_insert (e : Extent) (sm : SourceMap) (h : WFs sm) :
    WFs (updEntry e.source [] (fun cm =>
      updEntry e.precision 0 (fun c => c + e.count) cm) sm) := by
  obtain ⟨hs, hv⟩ := h
  refine ⟨updEntry_keySorted _ _ _ _ hs,
    updEntry_values keySorted _ _ _ _ hv ?_ ?_⟩
  · exact updEntry_keySorted _ _ _ _ (by simp [keySorted])
  · intro v hv'
    exact updEntry_keySorted _ _ _ _ hv'

theorem WFb_insert (e : Extent) (bm : BandMap) (h : WFb bm) :
    WFb (updEntry e.band [] (fun sm =>
      updEntry e.source [] (fun cm =>
        updEntry e.precision 0 (fun c => c + e.count) cm) sm) bm) := by
  obtain ⟨hs, hv⟩ := h
  refine ⟨updEntry_keySorted _ _ _ _ hs,
    updEntry_values WFs _ _ _ _ hv ?_ ?_⟩
  · exact WFs_insert e [] ⟨by simp [keySorted], by simp⟩
  · intro v hv'
    exact WFs_insert e v hv'

theorem WFg_insert (e : Extent) (gm : GeohashMap) (h : WFg gm) :
    WFg (updEntry e.geohash [] (fun bm =>
      updEntry e.band [] (fun sm =>
        updEntry e.source [] (fun cm =>
          updEntry e.precision 0 (fun c => c + e.count) cm) sm) bm) gm) := by
  obtain ⟨hs, hv⟩ := h
  refine ⟨updEntry_keySorted _ _ _ _ hs,
    updEntry_values WFb _ _ _ _ hv ?_ ?_⟩
  · exact WFb_insert e [] ⟨by simp [keySorted], by simp⟩
  · intro v hv'
    exact WFb_insert e v hv'

theorem WFp_insert (e : Extent) (m : PlatformMap) (h : WFp m) :
    WFp (insertExtent e m) := by
  obtain ⟨hs, hv⟩ := h
  refine ⟨updEntry_keySorted _ _ _ _ hs,
    updEntry_values WFg _ _ _ _ hv ?_ ?_⟩
  · exact WFg_insert e [] ⟨by simp [keySorted], by simp⟩
  · intro v hv'
    exact WFg_insert e v hv'

theorem WFp_aggregate_loop (es : List Extent) :
    ∀ m, WFp m → WFp (es.foldl (fun m e => insertExtent e m) m) := by
  induction es with
  | nil => intro m hm; exact hm
  | cons e es ih =>
    intro m hm
    rw [List.foldl_cons]
    exact ih _ (WFp_insert e m hm)

theorem WFp_aggregate (es : List Extent) : WFp (aggregate es) :=
  WFp_aggregate_loop es [] ⟨by simp [keySorted], by simp⟩

theorem countOf_insertExtent (e : Extent) (m : PlatformMap) (hm : WFp m)
    (key : String × String × String × String × Nat) :
    countOf (insertExtent e m) key =
      countOf m key + (if extentKey e = key then e.count else 0) := by
  obtain ⟨hs, hv⟩ := hm
  obtain ⟨k1, k2, k3, k4, k5⟩ := key
  simp only [countOf, insertExtent]
  by_cases h1 : e.platform = k1
  case neg =>
    rw [lookupD_updEntry_ne _ _ _ _ _ _ (fun hh => h1 hh.symm),
      if_neg (fun hk => h1 (congrArg (fun t => t.1) hk))]
    simp
  case pos =>
    subst h1
    rw [lookupD_updEntry_self _ _ _ _ hs]
    have hgm : WFg (lookupD m e.platform []) :=
      lookupD_prop WFg m e.platform [] hv ⟨by simp [keySorted], by simp⟩
    obtain ⟨hs2, hv2⟩ := hgm
    by_cases h2 : e.geohash = k2
    case neg =>
      rw [lookupD_updEntry_ne _ _ _ _ _ _ (fun hh => h2 hh.symm),
        if_neg (fun hk => h2 (congrArg (fun t => t.2.1) hk))]
      simp
    case pos =>
      subst h2
      rw [lookupD_updEntry_self _ _ _ _ hs2]
      have hbm : WFb (lookupD (lookupD m e.platform []) e.geohash []) :=
        lookupD_prop WFb _ e.geohash [] hv2 ⟨by simp [keySorted], by simp⟩
      obtain ⟨hs3, hv3⟩ := hbm
      by_cases h3 : e.band = k3
      case neg =>
        rw [lookupD_updEntry_ne _ _ _ _ _ _ (fun hh => h3 hh.symm),
          if_neg (fun hk => h3 (congrArg (fun t => t.2.2.1) hk))]
        simp
      case pos =>
        subst h3
        rw [lookupD_updEntry_self _ _ _ _ hs3]
        have hsm : WFs (lookupD (lookupD (lookupD m e.platform [])
            e.geohash []) e.band []) :=
          lookupD_prop WFs _ e.band [] hv3 ⟨by simp [keySorted], by simp⟩
        obtain ⟨hs4, hv4⟩ := hsm
        by_cases h4 : e.source = k4
        case neg =>
          rw [lookupD_updEntry_ne _ _ _ _ _ _ (fun hh => h4 hh.symm),
            if_neg (fun hk => h4 (congrArg (fun t => t.2.2.2.1) hk))]
          simp
        case pos =>
          subst h4
          rw [lookupD_updEntry_self _ _ _ _ hs4]
          have hcm : keySorted (lookupD (lookupD (lookupD (lookupD m
              e.platform []) e.geohash []) e.band []) e.source []) :=
            lookupD_prop keySorted _ e.source [] hv4 (by simp [keySorted])
          by_cases h5 : e.precision = k5
          case neg =>
            rw [lookupD_updEntry_ne _ _ _ _ _ _ (fun hh => h5 hh.symm),
              if_neg (fun hk => h5 (congrArg (fun t => t.2.2.2.2) hk))]
            simp
          case pos =>
            subst h5
            rw [lookupD_updEntry_self _ _ _ _ hcm, if_pos (show extentKey e =
              (e.platform, e.geohash, e.band, e.source, e.precision) from rfl)]

theorem sumCounts_cons (e : Extent) (es : List Extent)
    (key : String × String × String × String × Nat) :
    sumCounts (e :: es) key =
      (if extentKey e = key then e.count else 0) + sumCounts es key := by
  rw [sumCounts, sumCounts, List.filter_cons]
  split
  · rename_i hp
    rw [List.map_cons, List.sum_cons]
    rw [if_pos (by exact of_decide_eq_true hp)]
  · rename_i hp
    rw [if_neg (by
      intro hk
      exact hp (decide_eq_true hk))]
    simp

theorem countOf_aggregate_loop (es : List Extent) :
    ∀ m, WFp m → ∀ key,
      countOf (es.foldl (fun m e => insertExtent e m) m) key =
        countOf m key + sumCounts es key := by
  induction es with
  | nil =>
    intro m hm key
    simp [sumCounts]
  | cons e es ih =>
    intro m hm key
    rw [List.foldl_cons, ih _ (WFp_insert e m hm) key,
      countOf_insertExtent e m hm key, sumCounts_cons]
    ring

theorem countOf_aggregate (es : List Extent)
    (key : String × String × String × String × Nat) :
    countOf (aggregate es) key = sumCounts es key := by
  rw [aggregate, countOf_aggregate_loop es [] ⟨by simp [keySorted], by simp⟩ key]
  have h0 : countOf [] key = 0 := rfl
  rw [h0, Int.zero_add]

theorem sumCounts_append (xs ys : List Extent)
    (key : String × String × String × String × Nat) :
    sumCounts (xs ++ ys) key = sumCounts xs key + sumCounts ys key := by
  rw [sumCounts, sumCounts, sumCounts, List.filter_append, List.map_append,
    List.sum_append]

theorem sorted_flat {K β R : Type} [LinearOrder K] (rlt : R → R → Prop)
    (rowsOf : β → List R) (l : List (K × β))
    (houter : keySorted l)
    (hinner : ∀ kv ∈ l, (rowsOf kv.2).Pairwise rlt) :
    (l.flatMap (fun kv => (rowsOf kv.2).map (fun r => (kv.1, r)))).Pairwise
      (Prod.Lex (· < ·) rlt) := by
  induction l with
  | nil => simp
  | cons kv l ih =>
    rw [List.flatMap_cons, List.pairwise_append]
    rw [keySorted, List.pairwise_cons] at houter
    obtain ⟨hhead, htail⟩ := houter
    refine ⟨?_, ?_, ?_⟩
    · rw [List.pairwise_map]
      exact (hinner kv (by simp)).imp (fun h => Prod.Lex.right _ h)
    · exact ih htail (fun kv' h => hinner kv' (List.mem_cons_of_mem _ h))
    · intro a ha b hb
      obtain ⟨r, hr, hra⟩ := List.mem_map.mp ha
      obtain ⟨kv', hkv', hb'⟩ := List.mem_flatMap.mp hb
      obtain ⟨r', hr', hrb⟩ := List.mem_map.mp hb'
      rw [← hra, ← hrb]
      exact Prod.Lex.left _ _ (hhead kv' hkv')

theorem rowsSource_sorted (sm : SourceMap) (h : WFs sm) :
    (rowsSource sm).Pairwise
      (Prod.Lex (· < ·) (fun a b : Nat × Int => a.1 < b.1)) :=
  sorted_flat _ (fun cm => cm) sm h.1 h.2

theorem rowsBand_sorted (bm : BandMap) (h : WFb bm) :
    (rowsBand bm).Pairwise (Prod.Lex (· < ·) (Prod.Lex (· < ·)
      (fun a b : Nat × Int => a.1 < b.1))) :=
  sorted_flat _ rowsSource bm h.1
    (fun kv hkv => rowsSource_sorted kv.2 (h.2 kv hkv))

theorem rowsGeohash_sorted (gm : GeohashMap) (h : WFg gm) :
    (rowsGeohash gm).Pairwise (Prod.Lex (· < ·) (Prod.Lex (· < ·)
      (Prod.Lex (· < ·) (fun a b : Nat × Int => a.1 < b.1)))) :=
  sorted_flat _ rowsBand gm h.1
    (fun kv hkv => rowsBand_sorted kv.2 (h.2 kv hkv))

theorem rowsPlatform_sorted (m : PlatformMap) (h : WFp m) :
    (rowsPlatform m).Pairwise rowLt :=
  sorted_flat _ rowsGeohash m h.1
    (fun kv hkv => rowsGeohash_sorted kv.2 (h.2 kv hkv))

/-- C6: the aggregator folds every received extent's count into the
5-level nested map keyed by (platform, geohash, band, source, precision)
in that order; the printed rows come out in strict lexicographic order of
that key tuple; the stored count for a key is the SUM of the counts of
all matching input extents (duplicates from different nodes add rather
than dedup); and the aggregation is additive over any split of the input
stream across nodes. -/
theorem search_aggregate_correct (es xs ys : List Extent)
    (key : String × String × String × String × Nat) :
    (rowsPlatform (aggregate es)).Pairwise rowLt ∧
    countOf (aggregate es) key = sumCounts es key ∧
    countOf (aggregate (xs ++ ys)) key =
      countOf (aggregate xs) key + countOf (aggregate ys) key := by
  refine ⟨rowsPlatform_sorted _ (WFp_aggregate es), countOf_aggregate es key, ?_⟩
  rw [countOf_aggregate, countOf_aggregate, countOf_aggregate, sumCounts_append]

end Stip
